import Mathlib

/-!
Verification of the time-entry core of the raven-backend repository
(`src/routers/time_entries.py`), against its natural-language specification.

Modelling conventions:
* Python `datetime` values are modelled at one-second granularity by
  `PyDatetime`: `wall` is the wall-clock reading (seconds since the epoch as
  displayed), `off` is `none` for a naive datetime (`tzinfo is None`) and
  `some o` for an aware datetime with UTC offset `o` seconds (`pytz.UTC` is
  `some 0`).  `end - start` on two aware values subtracts the absolute
  instants; on a naive/aware mixed pair Python raises `TypeError`.
* Python `int(x)` on a float truncates toward zero; for an integral number of
  elapsed seconds `secs`, `int(secs / 60)` is `Int.tdiv secs 60`.
* Fallible Python code is modelled with `Except`: an uncaught Python exception
  is `ApiErr.py`, a `fastapi.HTTPException(status_code, detail)` is
  `ApiErr.http`.
* The Firestore collections are modelled by `Store`, lists of records;
  document `get` is `List.find?` on the id, `set` appends, and a partial
  `update` maps the merge over the records with the matching id.
* Text is modelled as `List Char` restricted to the ASCII reading of Python's
  `\w` (alphanumeric or underscore) and of `str.split()` whitespace.
-/

namespace Raven

/-- Model of a Python `datetime` at one-second granularity: `wall` is the
wall-clock reading in seconds, `off` is `none` when naive and `some o` when
aware with UTC offset `o` seconds. -/
structure PyDatetime where
  wall : Int
  off : Option Int
deriving DecidableEq, Repr

/-- The absolute instant of an aware datetime (UTC seconds). -/
def PyDatetime.instant (dt : PyDatetime) (o : Int) : Int := dt.wall - o

/-- Python subtraction `a - b` of two datetimes, in seconds: defined on
naive/naive and aware/aware pairs, raises `TypeError` on a mixed pair. -/
def pySub (a b : PyDatetime) : Except String Int :=
  match a.off, b.off with
  | none, none => .ok (a.wall - b.wall)
  | some oa, some ob => .ok ((a.wall - oa) - (b.wall - ob))
  | _, _ => .error "TypeError"

/-- Model of `calculate_duration` (time_entries.py lines 96-99).  The second argument
may be Python `None` (the call site at line 163 passes `entry.end_datetime`
unchecked): on a `None` end the line-97 guard evaluates `end_dt.tzinfo` when
`start_dt` is naive (`AttributeError`), otherwise line 99 subtracts `None`
from a datetime (`TypeError`).  Line 97-98 replaces a naive start with an
aware UTC one only when the end is aware; line 99 is
`int((end_dt - start_dt).total_seconds() / 60)`, truncation toward zero. -/
def calculate_duration (start_dt : PyDatetime) (end_dt : Option PyDatetime) :
    Except String Int :=
  match end_dt with
  | none =>
      if start_dt.off = none then .error "AttributeError"
      else .error "TypeError"
  | some e =>
      let s := if start_dt.off = none ∧ e.off ≠ none
               then { start_dt with off := some 0 } else start_dt
      match pySub e s with
      | .ok secs => .ok (secs.tdiv 60)
      | .error msg => .error msg

/-- ASCII model of Python's regex class `\w`: letters, digits, underscore. -/
def isWordChar (c : Char) : Bool := c.isAlphanum || c == '_'

/-- ASCII model of the whitespace recognised by Python `str.split()` /
`str.strip()`. -/
def isSpaceChar (c : Char) : Bool := c == ' ' || c == '\t' || c == '\n' || c == '\r'

/-- One simultaneous left-to-right pass of `re.findall(r'#(\w+)', text)` and
`re.sub(r'#(\w+)', '', text)` (time_entries.py lines 64-67): the first
component is the text with every match removed, the second the list of
captured word-character payloads in order of appearance. -/
def scanTags : List Char → List Char × List (List Char)
  | [] => ([], [])
  | c :: rest =>
    if c == '#' && !(rest.takeWhile isWordChar).isEmpty then
      let r := scanTags (rest.dropWhile isWordChar)
      (r.1, rest.takeWhile isWordChar :: r.2)
    else
      let r := scanTags rest
      (c :: r.1, r.2)
termination_by l => l.length
decreasing_by
  · exact Nat.lt_succ_of_le ((List.dropWhile_suffix _).length_le)
  · exact Nat.lt_succ_self _

/-- Python `str.strip()`: drop leading and trailing whitespace. -/
def pyStrip (l : List Char) : List Char :=
  ((l.dropWhile isSpaceChar).reverse.dropWhile isSpaceChar).reverse

/-- Python `str.split()` (no argument): the maximal runs of non-whitespace
characters, in order; empty runs never occur. -/
def pySplit : List Char → List (List Char)
  | [] => []
  | c :: rest =>
    if isSpaceChar c then pySplit rest
    else (c :: rest.takeWhile (fun x => !isSpaceChar x)) ::
      pySplit (rest.dropWhile (fun x => !isSpaceChar x))
termination_by l => l.length
decreasing_by
  · exact Nat.lt_succ_self _
  · exact Nat.lt_succ_of_le ((List.dropWhile_suffix _).length_le)

/-- Python `' '.join(words)`. -/
def joinWords : List (List Char) → List Char
  | [] => []
  | [w] => w
  | w :: ws => w ++ ' ' :: joinWords ws

/-- Model of `extract_tags_from_text` (time_entries.py lines 59-70): returns the clean
text (matches removed, stripped, whitespace collapsed to single spaces) and
the list of extracted tags.  `if not text` is true exactly for the empty
string. -/
def extract_tags_from_text (text : List Char) : List Char × List (List Char) :=
  if text.isEmpty then ([], [])
  else
    let r := scanTags text
    (joinWords (pySplit (pyStrip r.1)), r.2)

/-! Auxiliary predicates for reasoning about the extractor: `hasTag l` holds
when some `'#'` in `l` is immediately followed by a word character, i.e. when
the pattern `#(\w+)` matches somewhere in `l`. -/

/-- The first character exists and is a word character. -/
def headIsWord : List Char → Bool
  | [] => false
  | c :: _ => isWordChar c

/-- Some `'#'` in the list is immediately followed by a word character. -/
def hasTag : List Char → Bool
  | [] => false
  | c :: rest => (c == '#' && headIsWord rest) || hasTag rest

theorem headIsWord_takeWhile (q : Char → Bool) (l : List Char)
    (h : headIsWord (l.takeWhile q) = true) : headIsWord l = true := by
  cases l with
  | nil => simpa [List.takeWhile] using h
  | cons c rest =>
    by_cases hq : q c
    · simpa [List.takeWhile_cons, hq, headIsWord] using h
    · simp [List.takeWhile_cons, hq, headIsWord] at h

theorem headIsWord_append (l₁ l₂ : List Char) (h : headIsWord l₁ = true) :
    headIsWord (l₁ ++ l₂) = true := by
  cases l₁ with
  | nil => simp [headIsWord] at h
  | cons c rest => simpa [headIsWord] using h

theorem hasTag_append (l₁ l₂ : List Char) (h : hasTag (l₁ ++ l₂) = false) :
    hasTag l₁ = false ∧ hasTag l₂ = false := by
  induction l₁ with
  | nil => exact ⟨rfl, h⟩
  | cons c rest ih =>
    rw [List.cons_append, hasTag] at h
    rcases Bool.or_eq_false_iff.1 h with ⟨h1, h2⟩
    rcases ih h2 with ⟨h3, h4⟩
    refine ⟨?_, h4⟩
    rw [hasTag, h3, Bool.or_false]
    rcases Bool.and_eq_false_iff.1 h1 with h5 | h5
    · rw [h5, Bool.false_and]
    · rw [Bool.and_eq_false_iff]
      right
      by_contra h6
      rw [headIsWord_append rest l₂ (by revert h6; cases headIsWord rest <;> simp)] at h5
      simp at h5

theorem hasTag_tail (c : Char) (l : List Char) (h : hasTag (c :: l) = false) :
    hasTag l = false := by
  rw [hasTag] at h
  exact (Bool.or_eq_false_iff.1 h).2

theorem hasTag_dropWhile (q : Char → Bool) (l : List Char) (h : hasTag l = false) :
    hasTag (l.dropWhile q) = false := by
  induction l with
  | nil => simpa using h
  | cons c rest ih =>
    by_cases hq : q c
    · rw [List.dropWhile_cons_of_pos hq]
      exact ih (hasTag_tail _ _ h)
    · rwa [List.dropWhile_cons_of_neg hq]

theorem hasTag_takeWhile (q : Char → Bool) (l : List Char) (h : hasTag l = false) :
    hasTag (l.takeWhile q) = false := by
  induction l with
  | nil => simpa using h
  | cons c rest ih =>
    by_cases hq : q c
    · rw [List.takeWhile_cons_of_pos hq, hasTag]
      rw [hasTag] at h
      rcases Bool.or_eq_false_iff.1 h with ⟨h1, h2⟩
      rw [ih h2, Bool.or_false]
      rcases Bool.and_eq_false_iff.1 h1 with h5 | h5
      · rw [h5, Bool.false_and]
      · rw [Bool.and_eq_false_iff]
        right
        by_contra h6
        rw [headIsWord_takeWhile q rest (by revert h6; cases headIsWord (rest.takeWhile q) <;> simp)] at h5
        simp at h5
    · rw [List.takeWhile_cons_of_neg hq]
      rfl

theorem hasTag_cons_split (c : Char) (l : List Char) (h : hasTag (c :: l) = false) :
    (c == '#' && headIsWord l) = false ∧ hasTag l = false := by
  rw [hasTag] at h
  exact Bool.or_eq_false_iff.1 h

theorem hasTag_cons_of (c : Char) (l : List Char)
    (h1 : (c == '#' && headIsWord l) = false) (h2 : hasTag l = false) :
    hasTag (c :: l) = false := by
  rw [hasTag, h1, h2]
  rfl

theorem tagGuard_mono (c : Char) (l l' : List Char)
    (h : (c == '#' && headIsWord l) = false)
    (himp : headIsWord l' = true → headIsWord l = true) :
    (c == '#' && headIsWord l') = false := by
  rcases Bool.and_eq_false_iff.1 h with h1 | h1
  · rw [h1, Bool.false_and]
  · rw [Bool.and_eq_false_iff]
    right
    by_contra h2
    rw [himp (by revert h2; cases headIsWord l' <;> simp)] at h1
    simp at h1

theorem headIsWord_dropWhile_word (l : List Char) :
    headIsWord (l.dropWhile isWordChar) = false := by
  induction l with
  | nil => rfl
  | cons c rest ih =>
    by_cases hc : isWordChar c
    · rwa [List.dropWhile_cons_of_pos hc]
    · rw [List.dropWhile_cons_of_neg hc, headIsWord]
      simpa using hc

theorem headIsWord_of_takeWhile_word_ne (l : List Char)
    (h : ¬(l.takeWhile isWordChar).isEmpty = true) : headIsWord l = true := by
  cases l with
  | nil => simp [List.takeWhile] at h
  | cons c rest =>
    by_cases hc : isWordChar c
    · rw [headIsWord]
      exact hc
    · rw [List.takeWhile_cons_of_neg hc] at h
      simp at h

theorem headIsWord_of_takeWhile_word_empty (l : List Char)
    (h : (l.takeWhile isWordChar).isEmpty = true) : headIsWord l = false := by
  cases l with
  | nil => rfl
  | cons c rest =>
    by_cases hc : isWordChar c
    · rw [List.takeWhile_cons_of_pos hc] at h
      simp at h
    · rw [headIsWord]
      simpa using hc

/-- The clean text produced by `scanTags` cannot begin with a word character
unless the input did. -/
theorem scanTags_nil : scanTags [] = ([], []) := by
  rw [scanTags]

theorem scanTags_cons_pos (c : Char) (rest : List Char)
    (hc : (c == '#' && !(rest.takeWhile isWordChar).isEmpty) = true) :
    scanTags (c :: rest) =
      ((scanTags (rest.dropWhile isWordChar)).1,
        rest.takeWhile isWordChar :: (scanTags (rest.dropWhile isWordChar)).2) := by
  rw [scanTags, if_pos hc]

theorem scanTags_cons_neg (c : Char) (rest : List Char)
    (hc : ¬(c == '#' && !(rest.takeWhile isWordChar).isEmpty) = true) :
    scanTags (c :: rest) = (c :: (scanTags rest).1, (scanTags rest).2) := by
  rw [scanTags, if_neg hc]

theorem scanTags_head (l : List Char) :
    headIsWord (scanTags l).1 = true → headIsWord l = true := by
  induction l using scanTags.induct with
  | case1 => intro h; rw [scanTags_nil] at h; exact absurd h (by simp [headIsWord])
  | case2 c rest hc ih =>
    intro h
    rw [scanTags_cons_pos c rest hc] at h
    have := ih h
    rw [headIsWord_dropWhile_word] at this
    simp at this
  | case3 c rest hc ih =>
    intro h
    rw [scanTags_cons_neg c rest hc] at h
    rw [headIsWord] at h ⊢
    exact h

/-- No occurrence of the pattern `#(\w+)` survives in the text `scanTags`
returns. -/
theorem scanTags_no_tag (l : List Char) : hasTag (scanTags l).1 = false := by
  induction l using scanTags.induct with
  | case1 => rw [scanTags_nil]; rfl
  | case2 c rest hc ih =>
    rw [scanTags_cons_pos c rest hc]
    exact ih
  | case3 c rest hc ih =>
    rw [scanTags_cons_neg c rest hc]
    refine hasTag_cons_of _ _ ?_ ih
    have hc' : (c == '#' && !(rest.takeWhile isWordChar).isEmpty) = false := by
      simpa using hc
    by_cases h7 : (c == '#') = true
    · have hrest : headIsWord rest = false := by
        apply headIsWord_of_takeWhile_word_empty
        rcases Bool.and_eq_false_iff.1 hc' with h | h
        · rw [h7] at h; simp at h
        · simpa using h
      refine tagGuard_mono c rest _ ?_ fun hw => scanTags_head rest hw
      rw [hrest, Bool.and_false]
    · rw [Bool.and_eq_false_iff]
      left
      simpa using h7

/-- On text without any `#(\w+)` occurrence, `scanTags` is the identity and
extracts nothing. -/
theorem scanTags_of_no_tag (l : List Char) (h : hasTag l = false) :
    scanTags l = (l, []) := by
  induction l using scanTags.induct with
  | case1 => rw [scanTags_nil]
  | case2 c rest hc ih =>
    exfalso
    simp only [Bool.and_eq_true] at hc
    obtain ⟨h1, h2⟩ := hc
    have h3 : headIsWord rest = true :=
      headIsWord_of_takeWhile_word_ne rest (by simpa using h2)
    have h4 := (hasTag_cons_split c rest h).1
    rw [h1, h3] at h4
    simp at h4
  | case3 c rest hc ih =>
    rw [scanTags_cons_neg c rest hc, ih (hasTag_tail _ _ h)]

theorem pySplit_nil : pySplit [] = [] := by
  rw [pySplit]

theorem pySplit_cons_space (c : Char) (rest : List Char) (hc : isSpaceChar c = true) :
    pySplit (c :: rest) = pySplit rest := by
  rw [pySplit, if_pos hc]

theorem pySplit_cons_word (c : Char) (rest : List Char) (hc : ¬isSpaceChar c = true) :
    pySplit (c :: rest) =
      (c :: rest.takeWhile (fun x => !isSpaceChar x)) ::
        pySplit (rest.dropWhile (fun x => !isSpaceChar x)) := by
  rw [pySplit, if_neg hc]

/-- Every word produced by `pySplit` is tag-free when the input text is. -/
theorem pySplit_no_tag (l : List Char) :
    hasTag l = false → ∀ w ∈ pySplit l, hasTag w = false := by
  induction l using pySplit.induct with
  | case1 => intro _ w hw; rw [pySplit_nil] at hw; simp at hw
  | case2 c rest hc ih =>
    intro h w hw
    rw [pySplit_cons_space c rest hc] at hw
    exact ih (hasTag_tail _ _ h) w hw
  | case3 c rest hc ih =>
    intro h w hw
    rw [pySplit_cons_word c rest hc] at hw
    obtain ⟨hg, ht⟩ := hasTag_cons_split c rest h
    rcases List.mem_cons.1 hw with rfl | hw'
    · refine hasTag_cons_of _ _ ?_ (hasTag_takeWhile _ rest ht)
      exact tagGuard_mono c rest _ hg (headIsWord_takeWhile _ rest)
    · exact ih (hasTag_dropWhile _ rest ht) w hw'

/-- Every word produced by `pySplit` is nonempty and free of whitespace. -/
theorem pySplit_good (l : List Char) :
    ∀ w ∈ pySplit l, w ≠ [] ∧ ∀ c ∈ w, isSpaceChar c = false := by
  induction l using pySplit.induct with
  | case1 => intro w hw; rw [pySplit_nil] at hw; simp at hw
  | case2 c rest hc ih =>
    intro w hw
    rw [pySplit_cons_space c rest hc] at hw
    exact ih w hw
  | case3 c rest hc ih =>
    intro w hw
    rw [pySplit_cons_word c rest hc] at hw
    rcases List.mem_cons.1 hw with rfl | hw'
    · refine ⟨by simp, ?_⟩
      intro d hd
      rcases List.mem_cons.1 hd with rfl | hd'
      · simpa using hc
      · simpa using List.mem_takeWhile_imp hd'
    · exact ih w hw'

theorem joinWords_nil : joinWords [] = [] := rfl

theorem joinWords_single (w : List Char) : joinWords [w] = w := rfl

theorem joinWords_cons₂ (w w' : List Char) (ws : List (List Char)) :
    joinWords (w :: w' :: ws) = w ++ ' ' :: joinWords (w' :: ws) := rfl

theorem headIsWord_space_append_imp (rest l₂ : List Char) :
    headIsWord (rest ++ ' ' :: l₂) = true → headIsWord rest = true := by
  cases rest with
  | nil =>
    intro h
    rw [List.nil_append, headIsWord] at h
    exact absurd h (by decide)
  | cons d tl =>
    intro h
    rw [List.cons_append, headIsWord] at h
    rw [headIsWord]
    exact h

theorem hasTag_append_space (l₁ l₂ : List Char) (h1 : hasTag l₁ = false)
    (h2 : hasTag l₂ = false) : hasTag (l₁ ++ ' ' :: l₂) = false := by
  induction l₁ with
  | nil =>
    rw [List.nil_append]
    refine hasTag_cons_of _ _ ?_ h2
    rw [Bool.and_eq_false_iff]
    left
    decide
  | cons c rest ih =>
    rw [List.cons_append]
    obtain ⟨hg, ht⟩ := hasTag_cons_split c rest h1
    exact hasTag_cons_of _ _
      (tagGuard_mono c rest _ hg (headIsWord_space_append_imp rest l₂)) (ih ht)

/-- Joining tag-free words with single spaces yields tag-free text. -/
theorem hasTag_joinWords (ws : List (List Char)) (h : ∀ w ∈ ws, hasTag w = false) :
    hasTag (joinWords ws) = false := by
  induction ws with
  | nil => rfl
  | cons w ws' ih =>
    cases ws' with
    | nil => exact h w (by simp)
    | cons w' ws'' =>
      rw [joinWords_cons₂]
      exact hasTag_append_space _ _ (h w (by simp))
        (ih (fun x hx => h x (List.mem_cons_of_mem _ hx)))

theorem joinWords_ne_nil (ws : List (List Char)) (hg : ∀ w ∈ ws, w ≠ [])
    (h : ws ≠ []) : joinWords ws ≠ [] := by
  cases ws with
  | nil => exact absurd rfl h
  | cons w ws' =>
    cases ws' with
    | nil => rw [joinWords_single]; exact hg w (by simp)
    | cons w' ws'' =>
      rw [joinWords_cons₂]
      simp

theorem joinWords_head (ws : List (List Char))
    (hg : ∀ w ∈ ws, w ≠ [] ∧ ∀ c ∈ w, isSpaceChar c = false) :
    ∀ c, (joinWords ws).head? = some c → isSpaceChar c = false := by
  cases ws with
  | nil => intro c hc; rw [joinWords_nil] at hc; simp at hc
  | cons w ws' =>
    intro c hc
    obtain ⟨hne, hns⟩ := hg w (by simp)
    cases hw : w with
    | nil => exact absurd hw hne
    | cons d tl =>
      subst hw
      cases ws' with
      | nil =>
        rw [joinWords_single, List.head?_cons] at hc
        cases hc
        exact hns c (by simp)
      | cons w' ws'' =>
        rw [joinWords_cons₂, List.cons_append, List.head?_cons] at hc
        cases hc
        exact hns c (by simp)

theorem joinWords_getLast (ws : List (List Char))
    (hg : ∀ w ∈ ws, w ≠ [] ∧ ∀ c ∈ w, isSpaceChar c = false) :
    ∀ c, (joinWords ws).getLast? = some c → isSpaceChar c = false := by
  induction ws with
  | nil => intro c hc; rw [joinWords_nil] at hc; simp at hc
  | cons w ws' ih =>
    intro c hc
    cases ws' with
    | nil =>
      rw [joinWords_single] at hc
      exact (hg w (by simp)).2 c (List.mem_of_mem_getLast? hc)
    | cons w' ws'' =>
      rw [joinWords_cons₂, List.getLast?_append_cons] at hc
      have hne : joinWords (w' :: ws'') ≠ [] :=
        joinWords_ne_nil _ (fun x hx => (hg x (List.mem_cons_of_mem _ hx)).1) (by simp)
      cases hj : joinWords (w' :: ws'') with
      | nil => exact absurd hj hne
      | cons j jt =>
        rw [hj, List.getLast?_cons_cons, ← hj] at hc
        exact ih (fun x hx => hg x (List.mem_cons_of_mem _ hx)) c hc

theorem pyStrip_id (l : List Char)
    (h1 : ∀ c, l.head? = some c → isSpaceChar c = false)
    (h2 : ∀ c, l.getLast? = some c → isSpaceChar c = false) :
    pyStrip l = l := by
  cases l with
  | nil => rfl
  | cons c rest =>
    rw [pyStrip]
    have hd : (c :: rest).dropWhile isSpaceChar = c :: rest :=
      List.dropWhile_cons_of_neg (by rw [h1 c rfl]; simp)
    rw [hd]
    have hrev : (c :: rest).reverse.dropWhile isSpaceChar = (c :: rest).reverse := by
      cases hr : (c :: rest).reverse with
      | nil => simp at hr
      | cons d tl =>
        have hlast : (c :: rest).getLast? = some d := by
          rw [← List.head?_reverse, hr, List.head?_cons]
        exact List.dropWhile_cons_of_neg (by rw [h2 d hlast]; simp)
    rw [hrev, List.reverse_reverse]

/-- Stripping leading/trailing whitespace preserves freedom from tags. -/
theorem hasTag_pyStrip (l : List Char) (h : hasTag l = false) :
    hasTag (pyStrip l) = false := by
  have h1 : hasTag (l.dropWhile isSpaceChar) = false := hasTag_dropWhile _ _ h
  have hdecomp : l.dropWhile isSpaceChar =
      pyStrip l ++ ((l.dropWhile isSpaceChar).reverse.takeWhile isSpaceChar).reverse := by
    rw [pyStrip]
    conv_lhs => rw [← List.reverse_reverse (l.dropWhile isSpaceChar),
      ← List.takeWhile_append_dropWhile (p := isSpaceChar)
        (l := (l.dropWhile isSpaceChar).reverse),
      List.reverse_append]
  rw [hdecomp] at h1
  exact (hasTag_append _ _ h1).1

theorem takeWhile_all_append (q : Char → Bool) (w r : List Char) (x : Char)
    (hw : ∀ c ∈ w, q c = true) (hx : q x = false) :
    (w ++ x :: r).takeWhile q = w := by
  induction w with
  | nil => rw [List.nil_append]; exact List.takeWhile_cons_of_neg (by simp [hx])
  | cons c w' ih =>
    rw [List.cons_append, List.takeWhile_cons_of_pos (hw c (by simp)),
      ih (fun d hd => hw d (List.mem_cons_of_mem _ hd))]

theorem dropWhile_all_append (q : Char → Bool) (w r : List Char) (x : Char)
    (hw : ∀ c ∈ w, q c = true) (hx : q x = false) :
    (w ++ x :: r).dropWhile q = x :: r := by
  induction w with
  | nil => rw [List.nil_append]; exact List.dropWhile_cons_of_neg (by simp [hx])
  | cons c w' ih =>
    rw [List.cons_append, List.dropWhile_cons_of_pos (hw c (by simp))]
    exact ih (fun d hd => hw d (List.mem_cons_of_mem _ hd))

theorem pySplit_single (w : List Char) (hne : w ≠ [])
    (hns : ∀ c ∈ w, isSpaceChar c = false) : pySplit w = [w] := by
  cases w with
  | nil => exact absurd rfl hne
  | cons c w' =>
    rw [pySplit_cons_word c w' (by rw [hns c (by simp)]; simp)]
    have ht : w'.takeWhile (fun x => !isSpaceChar x) = w' :=
      List.takeWhile_eq_self_iff.mpr
        (fun x hx => by simp [hns x (List.mem_cons_of_mem _ hx)])
    have hd : w'.dropWhile (fun x => !isSpaceChar x) = [] :=
      List.dropWhile_eq_nil_iff.mpr
        (fun x hx => by simp [hns x (List.mem_cons_of_mem _ hx)])
    rw [ht, hd, pySplit_nil]

/-- Splitting the single-space join of nonempty space-free words recovers
exactly those words. -/
theorem pySplit_joinWords (ws : List (List Char))
    (hg : ∀ w ∈ ws, w ≠ [] ∧ ∀ c ∈ w, isSpaceChar c = false) :
    pySplit (joinWords ws) = ws := by
  induction ws with
  | nil => rw [joinWords_nil, pySplit_nil]
  | cons w ws' ih =>
    cases ws' with
    | nil =>
      rw [joinWords_single]
      exact pySplit_single w (hg w (by simp)).1 (hg w (by simp)).2
    | cons w' ws'' =>
      rw [joinWords_cons₂]
      obtain ⟨hne, hns⟩ := hg w (by simp)
      cases hw : w with
      | nil => exact absurd hw hne
      | cons c w₀ =>
        subst hw
        rw [List.cons_append,
          pySplit_cons_word c _ (by rw [hns c (by simp)]; simp)]
        have hq : ∀ x ∈ w₀, (fun x => !isSpaceChar x) x = true :=
          fun x hx => by simp [hns x (List.mem_cons_of_mem _ hx)]
        rw [takeWhile_all_append _ w₀ (joinWords (w' :: ws'')) ' ' hq (by decide),
          dropWhile_all_append _ w₀ (joinWords (w' :: ws'')) ' ' hq (by decide),
          pySplit_cons_space ' ' _ (by decide),
          ih (fun x hx => hg x (List.mem_cons_of_mem _ hx))]

theorem extract_nil : extract_tags_from_text [] = ([], []) := rfl

theorem extract_eq (t : List Char) (h : ¬t.isEmpty = true) :
    extract_tags_from_text t =
      (joinWords (pySplit (pyStrip (scanTags t).1)), (scanTags t).2) := by
  rw [extract_tags_from_text, if_neg h]

/-- C8: for every text input `t`, the extractor is idempotent on the clean
text: extracting again from `extract(t).clean_text` returns the same clean
text and an empty list of tags. -/
theorem C8_extract_idempotent (t : List Char) :
    (extract_tags_from_text (extract_tags_from_text t).1).1
        = (extract_tags_from_text t).1 ∧
    (extract_tags_from_text (extract_tags_from_text t).1).2 = [] := by
  by_cases ht : t.isEmpty = true
  · have h0 : extract_tags_from_text t = ([], []) := by
      rw [extract_tags_from_text, if_pos ht]
    rw [h0]
    exact ⟨rfl, rfl⟩
  · rw [extract_eq t ht]
    by_cases hc : (joinWords (pySplit (pyStrip (scanTags t).1))).isEmpty = true
    · constructor
      · show (extract_tags_from_text (joinWords (pySplit (pyStrip (scanTags t).1)))).1
            = joinWords (pySplit (pyStrip (scanTags t).1))
        rw [List.isEmpty_iff.1 hc, extract_nil]
      · show (extract_tags_from_text (joinWords (pySplit (pyStrip (scanTags t).1)))).2 = []
        rw [List.isEmpty_iff.1 hc, extract_nil]
    · have hnt : hasTag (scanTags t).1 = false := scanTags_no_tag t
      have hst : hasTag (pyStrip (scanTags t).1) = false := hasTag_pyStrip _ hnt
      have hgood := pySplit_good (pyStrip (scanTags t).1)
      have hwnt := pySplit_no_tag (pyStrip (scanTags t).1) hst
      have hjnt : hasTag (joinWords (pySplit (pyStrip (scanTags t).1))) = false :=
        hasTag_joinWords _ hwnt
      have hscan := scanTags_of_no_tag _ hjnt
      have hstrip : pyStrip (joinWords (pySplit (pyStrip (scanTags t).1)))
          = joinWords (pySplit (pyStrip (scanTags t).1)) :=
        pyStrip_id _ (joinWords_head _ hgood) (joinWords_getLast _ hgood)
      have hsplit := pySplit_joinWords _ hgood
      rw [extract_eq _ hc, hscan]
      exact ⟨by rw [hstrip, hsplit], rfl⟩

/-! The entry-lifecycle state model: the two Firestore collections and the
four mutating endpoints of `src/routers/time_entries.py`. -/

/-- An `activities` document (the fields the time-entry endpoints read). -/
structure ActivityRec where
  id : String
  name : String
  user_id : String
deriving DecidableEq, Repr

/-- A `time_entries` document. -/
structure TimeEntryRec where
  id : String
  activity_id : String
  start_datetime : PyDatetime
  end_datetime : Option PyDatetime
  duration_minutes : Option Int
  notes : Option (List Char)
  tags : List (List Char)
  is_running : Bool
  created_at : PyDatetime
  user_id : String
deriving DecidableEq, Repr

/-- The Firestore state: the two collections used by the time-entry router. -/
structure Store where
  activities : List ActivityRec
  time_entries : List TimeEntryRec
deriving DecidableEq, Repr

/-- Lookup `db.collection("activities").document(aid).get()`. -/
def getActivity (st : Store) (aid : String) : Option ActivityRec :=
  st.activities.find? (fun a => a.id == aid)

/-- Lookup `db.collection("time_entries").document(eid).get()`. -/
def getEntry (st : Store) (eid : String) : Option TimeEntryRec :=
  st.time_entries.find? (fun e => e.id == eid)

/-- An operation outcome that aborts the request: an
`HTTPException(status, detail)` or an uncaught Python exception. -/
inductive ApiErr where
  | http (status : Nat) (detail : String)
  | py (exc : String)
deriving DecidableEq, Repr

/-- The inline naive-to-UTC coercion the endpoints apply before storing or
subtracting (`if dt.tzinfo is None: dt = dt.replace(tzinfo=pytz.UTC)`,
e.g. time_entries.py lines 158-161, 265-266, 330-333). -/
def normIfNaive (dt : PyDatetime) : PyDatetime :=
  if dt.off = none then { dt with off := some 0 } else dt

/-- Request body of `POST /` (`TimeEntryCreate`, time_entries.py lines
30-35). -/
structure TimeEntryCreate where
  activity_id : String
  start_datetime : PyDatetime
  end_datetime : Option PyDatetime
  notes : Option (List Char)
  tags : Option (List (List Char))
deriving Repr

/-- Request body of `PATCH /{entry_id}` (`TimeEntryUpdate`, time_entries.py
lines 37-40). -/
structure TimeEntryUpdate where
  end_datetime : Option PyDatetime
  notes : Option (List Char)
  tags : Option (List (List Char))
deriving Repr

/-- Model of `add_time_entry` (`POST /`, time_entries.py lines 137-192).  `new_id` and
`created_wall` model the fresh document id and `datetime.utcnow()`; the
Python `list(set(...))` deduplication is modelled by `List.dedup` (the
iteration order of a Python set is unspecified).  Returns the outcome plus
the resulting store; every failure path leaves the store unchanged. -/
def add_time_entry (st : Store) (uid : String) (entry : TimeEntryCreate)
    (new_id : String) (created_wall : Int) :
    Except ApiErr TimeEntryRec × Store :=
  match getActivity st entry.activity_id with
  | none => (.error (.http 404 "Activity not found"), st)
  | some act =>
    if act.user_id ≠ uid then (.error (.http 404 "Activity not found"), st)
    else
      let ex := extract_tags_from_text (entry.notes.getD [])
      let all_tags := ((entry.tags.getD []) ++ ex.2).dedup
      let start_dt := normIfNaive entry.start_datetime
      let end_dt := entry.end_datetime.map normIfNaive
      match calculate_duration start_dt end_dt with
      | .error exc => (.error (.py exc), st)
      | .ok d =>
        let newEntry : TimeEntryRec :=
          { id := new_id
            activity_id := entry.activity_id
            start_datetime := start_dt
            end_datetime := end_dt
            duration_minutes := some d
            notes := if ex.1.isEmpty then none else some ex.1
            tags := all_tags
            is_running := end_dt = none
            created_at := ⟨created_wall, some 0⟩
            user_id := uid }
        (.ok newEntry, { st with time_entries := st.time_entries ++ [newEntry] })

/-- Model of `start_time_entry` (`POST /start/{activity_id}`, time_entries.py lines
194-240).  `current_wall` models `datetime.utcnow()`; the stored
`current_time` is the aware UTC value of line 212. -/
def start_time_entry (st : Store) (uid : String) (activity_id : String)
    (new_id : String) (current_wall : Int) :
    Except ApiErr TimeEntryRec × Store :=
  match getActivity st activity_id with
  | none => (.error (.http 404 "Activity not found"), st)
  | some act =>
    if act.user_id ≠ uid then (.error (.http 404 "Activity not found"), st)
    else if st.time_entries.any (fun e => e.user_id == uid && e.is_running) then
      (.error (.http 400 "Another time entry is already running. Please stop it first."), st)
    else
      let newEntry : TimeEntryRec :=
        { id := new_id
          activity_id := activity_id
          start_datetime := ⟨current_wall, some 0⟩
          end_datetime := none
          duration_minutes := none
          notes := none
          tags := []
          is_running := true
          created_at := ⟨current_wall, some 0⟩
          user_id := uid }
      (.ok newEntry, { st with time_entries := st.time_entries ++ [newEntry] })

/-- The three-field `updates` dict a successful stop writes
(time_entries.py lines 270-276), merged into a stored record. -/
def stopMerge (now d : Int) (x : TimeEntryRec) : TimeEntryRec :=
  { x with end_datetime := some ⟨now, some 0⟩
           duration_minutes := some d
           is_running := false }

/-- Model of `stop_time_entry` (`PATCH /{entry_id}/stop`, time_entries.py lines
242-293).  `current_wall` models `datetime.utcnow()`; line 262 makes the
stored end the aware UTC value.  The partial `entry_ref.update` is modelled
by merging the three computed fields into every record with the matching id;
every failure path leaves the store unchanged. -/
def stop_time_entry (st : Store) (uid : String) (entry_id : String)
    (current_wall : Int) : Except ApiErr TimeEntryRec × Store :=
  match getEntry st entry_id with
  | none => (.error (.http 404 "Time entry not found"), st)
  | some e =>
    if e.user_id ≠ uid then (.error (.http 403 "Access denied"), st)
    else if ¬e.is_running then (.error (.http 400 "Time entry is not running"), st)
    else
      match calculate_duration (normIfNaive e.start_datetime)
          (some ⟨current_wall, some 0⟩) with
      | .error exc => (.error (.py exc), st)
      | .ok d =>
        (.ok (stopMerge current_wall d e),
          { st with time_entries :=
              st.time_entries.map (fun x => if x.id == entry_id then stopMerge current_wall d x else x) })

/-- The merge of the `updates` dict built by `update_time_entry`
(time_entries.py lines 313-344) into one stored record `x`.  The merged
values are computed once from the fetched entry `e` (the notes branch unions
`e`'s stored tags); `durOpt` carries the normalized end and recomputed
duration when `patch.end_datetime` is present. -/
def applyUpd (patch : TimeEntryUpdate) (e : TimeEntryRec)
    (durOpt : Option (PyDatetime × Int)) (x : TimeEntryRec) : TimeEntryRec :=
  let x₁ :=
    match patch.notes with
    | some n =>
      let ex := extract_tags_from_text n
      { x with notes := if ex.1.isEmpty then none else some ex.1
               tags := (e.tags ++ patch.tags.getD [] ++ ex.2).dedup }
    | none =>
      match patch.tags with
      | some ts => { x with tags := ts }
      | none => x
  match durOpt with
  | some (ed, d) =>
    { x₁ with end_datetime := some ed
              duration_minutes := some d
              is_running := false }
  | none => x₁

/-- Model of `update_time_entry` (`PATCH /{entry_id}`, time_entries.py lines 295-361).
The `updates` dict of lines 313-340 merges: the notes branch (notes present:
re-extract, union tags), else the tags branch (wholesale replacement), and
the end branch (normalize, recompute duration, force not-running).  Line 342
writes only when the dict is nonempty, which holds exactly when some patch
field is present.  The merged field values are computed once from the fetched
entry `e`, as in the Python. -/
def update_time_entry (st : Store) (uid : String) (entry_id : String)
    (patch : TimeEntryUpdate) : Except ApiErr TimeEntryRec × Store :=
  match getEntry st entry_id with
  | none => (.error (.http 404 "Time entry not found"), st)
  | some e =>
    if e.user_id ≠ uid then (.error (.http 403 "Access denied"), st)
    else
      let durRes : Except String (Option (PyDatetime × Int)) :=
        match patch.end_datetime with
        | none => .ok none
        | some ed =>
          match calculate_duration (normIfNaive e.start_datetime)
              (some (normIfNaive ed)) with
          | .ok d => .ok (some (normIfNaive ed, d))
          | .error exc => .error exc
      match durRes with
      | .error exc => (.error (.py exc), st)
      | .ok durOpt =>
        (.ok (applyUpd patch e durOpt e),
          if patch.notes.isSome || patch.tags.isSome || patch.end_datetime.isSome then
            { st with time_entries :=
                st.time_entries.map (fun x => if x.id == entry_id then applyUpd patch e durOpt x else x) }
          else st)

/-- The running-total loop shared by the list/aggregation endpoints
(e.g. time_entries.py lines 376-401): Python's
`if entry_data.get("duration_minutes"):` skips both a missing/None duration
and a zero one. -/
def sum_duration_minutes (docs : List TimeEntryRec) : Int :=
  docs.foldl
    (fun total e =>
      match e.duration_minutes with
      | some d => if d == 0 then total else total + d
      | none => total) 0

/-- Result shape of the aggregation endpoints (`TimeEntryWithTotal`,
time_entries.py lines 54-57; `total_hours` is presentation-only and not
modelled). -/
structure TimeEntryWithTotal where
  entries : List TimeEntryRec
  total_minutes : Int
deriving Repr

/-- Model of `list_time_entries` (`GET /`, time_entries.py lines 364-407): all entries
of the user, optionally narrowed to one activity, together with the running
total.  The descending `order_by` only permutes the streamed documents and
the loop computes the total from the same stream, so the ordering is not
modelled. -/
def list_time_entries (st : Store) (uid : String) (activity_id : Option String) :
    TimeEntryWithTotal :=
  let docs := st.time_entries.filter (fun e =>
    e.user_id == uid &&
      match activity_id with
      | some a => e.activity_id == a
      | none => true)
  { entries := docs, total_minutes := sum_duration_minutes docs }

/-! Helper lemmas about the duration computation and the store operations. -/

/-- On an aware pair, `calculate_duration` returns the truncated-toward-zero
division of the elapsed absolute seconds by 60. -/
theorem calculate_duration_aware (s e : PyDatetime) (os oe : Int)
    (hs : s.off = some os) (he : e.off = some oe) :
    calculate_duration s (some e) = .ok (((e.wall - oe) - (s.wall - os)).tdiv 60) := by
  rw [calculate_duration]
  rw [if_neg (by simp [hs])]
  rw [pySub, hs, he]

theorem normIfNaive_aware (dt : PyDatetime) : ∃ o, (normIfNaive dt).off = some o := by
  rw [normIfNaive]
  by_cases h : dt.off = none
  · exact ⟨0, by rw [if_pos h]⟩
  · rw [if_neg h]
    cases ho : dt.off with
    | none => exact absurd ho h
    | some o => exact ⟨o, rfl⟩

/-- After the callers' naive-to-UTC coercions, the duration computation never
fails. -/
theorem calculate_duration_norm_ok (s e : PyDatetime) :
    ∃ d, calculate_duration (normIfNaive s) (some (normIfNaive e)) = .ok d := by
  obtain ⟨os, hs⟩ := normIfNaive_aware s
  obtain ⟨oe, he⟩ := normIfNaive_aware e
  exact ⟨_, calculate_duration_aware _ _ os oe hs he⟩

theorem tdiv_eq_fdiv_of_nonneg (a : Int) (h : 0 ≤ a) :
    a.tdiv 60 = a.fdiv 60 := by
  rw [Int.tdiv_eq_ediv h (by omega), Int.fdiv_eq_ediv a (by omega)]

theorem tdiv_sixty_neg (a : Int) (h : a ≤ -60) : a.tdiv 60 < 0 := by
  have h3 : a.tdiv 60 = -((-a).tdiv 60) := by
    rw [← Int.neg_tdiv, neg_neg]
  have h1 : (-a).tdiv 60 = (-a) / 60 := Int.tdiv_eq_ediv (by omega) (by omega)
  rw [h3, h1]
  omega

/-- A partial update that preserves ids, applied to every record matching the
id of an entry found in the collection, leaves that entry's successor at the
same lookup position. -/
theorem find?_map_merge (l : List TimeEntryRec) (eid : String)
    (f : TimeEntryRec → TimeEntryRec) (hid : ∀ x, (f x).id = x.id)
    (e : TimeEntryRec) (h : l.find? (fun x => x.id == eid) = some e) :
    (l.map (fun x => if x.id == eid then f x else x)).find? (fun x => x.id == eid)
      = some (f e) := by
  induction l with
  | nil => simp at h
  | cons a l ih =>
    by_cases ha : (a.id == eid) = true
    · rw [List.find?_cons_of_pos (p := fun x : TimeEntryRec => x.id == eid) _ ha] at h
      cases h
      rw [List.map_cons, if_pos ha]
      exact List.find?_cons_of_pos (p := fun x : TimeEntryRec => x.id == eid) _ (by simp only [hid]; exact ha)
    · rw [List.find?_cons_of_neg (p := fun x : TimeEntryRec => x.id == eid) _ ha] at h
      rw [List.map_cons, if_neg ha]
      rw [List.find?_cons_of_neg (p := fun x : TimeEntryRec => x.id == eid) _ ha]
      exact ih h

theorem applyUpd_id (patch : TimeEntryUpdate) (e : TimeEntryRec)
    (durOpt : Option (PyDatetime × Int)) (x : TimeEntryRec) :
    (applyUpd patch e durOpt x).id = x.id := by
  rw [applyUpd.eq_def]
  cases patch.notes <;> cases durOpt <;> cases patch.tags <;> rfl

/-- When the patch carries notes, the merged tag list is the deduplicated
union of the stored tags, the supplied tags and the freshly extracted ones. -/
theorem applyUpd_tags_notes (patch : TimeEntryUpdate) (e : TimeEntryRec)
    (durOpt : Option (PyDatetime × Int)) (x : TimeEntryRec) (n : List Char)
    (hn : patch.notes = some n) :
    (applyUpd patch e durOpt x).tags =
      (e.tags ++ patch.tags.getD [] ++ (extract_tags_from_text n).2).dedup := by
  rw [applyUpd.eq_def, hn]
  cases durOpt with
  | none => rfl
  | some p => cases p; rfl

/-- When the patch carries tags but no notes, the merged tag list is exactly
the supplied one. -/
theorem applyUpd_tags_replace (patch : TimeEntryUpdate) (e : TimeEntryRec)
    (durOpt : Option (PyDatetime × Int)) (x : TimeEntryRec) (ts : List (List Char))
    (hn : patch.notes = none) (ht : patch.tags = some ts) :
    (applyUpd patch e durOpt x).tags = ts := by
  rw [applyUpd.eq_def, hn, ht]
  cases durOpt with
  | none => rfl
  | some p => cases p; rfl

/-- Successful-path shape of `update_time_entry`: under an existing, owned
entry the call returns the merged record and writes it back whenever some
patch field is present. -/
theorem update_time_entry_shape (st : Store) (uid eid : String)
    (patch : TimeEntryUpdate) (e : TimeEntryRec)
    (hfind : getEntry st eid = some e) (hown : e.user_id = uid) :
    ∃ durOpt : Option (PyDatetime × Int),
      (patch.end_datetime = none → durOpt = none) ∧
      update_time_entry st uid eid patch =
        (.ok (applyUpd patch e durOpt e),
          if patch.notes.isSome || patch.tags.isSome || patch.end_datetime.isSome then
            { st with time_entries :=
                st.time_entries.map (fun x => if x.id == eid then applyUpd patch e durOpt x else x) }
          else st) := by
  cases hpe : patch.end_datetime with
  | none =>
    refine ⟨none, fun _ => rfl, ?_⟩
    simp only [update_time_entry, hfind, hown, hpe, ne_eq, not_true_eq_false,
      ite_false, Option.isSome_none, Bool.or_false]
  | some ed =>
    obtain ⟨d, hd⟩ := calculate_duration_norm_ok e.start_datetime ed
    refine ⟨some (normIfNaive ed, d), by simp [hpe], ?_⟩
    simp only [update_time_entry, hfind, hown, hpe, hd, ne_eq, not_true_eq_false,
      ite_false, Option.isSome_some, Bool.or_true]

/-! Concrete fixtures used by the closed theorems and the witnesses. -/

/-- An activity owned by user `u1`. -/
def actA : ActivityRec := ⟨"a1", "Reading", "u1"⟩

/-- A running entry of user `u1`. -/
def runningT1 : TimeEntryRec :=
  { id := "t1", activity_id := "a1", start_datetime := ⟨0, some 0⟩,
    end_datetime := none, duration_minutes := none, notes := none,
    tags := [], is_running := true, created_at := ⟨0, some 0⟩, user_id := "u1" }

/-- A closed entry of user `u1`. -/
def closedT2 : TimeEntryRec :=
  { id := "t2", activity_id := "a1", start_datetime := ⟨0, some 0⟩,
    end_datetime := some ⟨300, some 0⟩, duration_minutes := some 5,
    notes := none, tags := [['a']], is_running := false,
    created_at := ⟨0, some 0⟩, user_id := "u1" }

/-- The record the with-end create of the C1 theorem stores. -/
def createdT9 : TimeEntryRec :=
  { id := "t9", activity_id := "a1", start_datetime := ⟨0, some 0⟩,
    end_datetime := some ⟨120, some 0⟩, duration_minutes := some 2,
    notes := none, tags := [], is_running := false,
    created_at := ⟨0, some 0⟩, user_id := "u1" }

/-- The record `POST /start` stores in the C7 witness. -/
def startedT9 : TimeEntryRec :=
  { id := "t9", activity_id := "a1", start_datetime := ⟨0, some 0⟩,
    end_datetime := none, duration_minutes := none, notes := none,
    tags := [], is_running := true, created_at := ⟨0, some 0⟩, user_id := "u1" }

/-! The claim theorems. -/

/-- C1 (code bug): with a valid activity and no end timestamp supplied,
`POST /` does not create a running entry with null duration: it raises an
uncaught Python `TypeError` inside `calculate_duration` (line 99 subtracts
`None`), because the live `calculate_duration` (lines 96-99) lost the
`if not end_dt: return None` guard still visible in the dead original
(lines 83-94).  With an end supplied the call succeeds, computes the
duration and stores `is_running = false`, as the claim states. -/
theorem C1_create_no_end_raises :
    add_time_entry ⟨[actA], []⟩ "u1" ⟨"a1", ⟨0, none⟩, none, none, none⟩ "t9" 0
      = (.error (.py "TypeError"), ⟨[actA], []⟩) ∧
    ∃ r st2, add_time_entry ⟨[actA], []⟩ "u1"
        ⟨"a1", ⟨0, none⟩, some ⟨120, none⟩, none, none⟩ "t9" 0 = (.ok r, st2) ∧
      r.duration_minutes = some 2 ∧ r.is_running = false := by
  refine ⟨rfl, ?_⟩
  exact ⟨createdT9, ⟨[actA], [createdT9]⟩, rfl, rfl, rfl⟩

/-- C2 counterexample: for an aware pair with `e` 90 seconds before `s`, the
code returns `int(-90 / 60 sec) = -1` (truncation toward zero), while the
mathematical floor claimed by the spec is `-2`. -/
theorem C2_cex :
    calculate_duration ⟨90, some 0⟩ (some ⟨0, some 0⟩) = .ok (-1) ∧
    Int.fdiv ((0 - 0) - (90 - 0)) 60 = -2 ∧ (-1 : Int) ≠ -2 :=
  ⟨rfl, rfl, by decide⟩

/-- C2 (amended): for aware timestamps `calculate_duration` returns the
truncation toward zero of the elapsed seconds divided by 60 — equal to the
floor exactly when `e ≥ s` — and when `e` precedes `s` by at least a minute
the result is strictly negative (no error, no clamp to zero). -/
theorem C2_duration_truncates (s e : PyDatetime) (os oe : Int)
    (hs : s.off = some os) (he : e.off = some oe) :
    calculate_duration s (some e) = .ok (((e.wall - oe) - (s.wall - os)).tdiv 60) ∧
    (s.wall - os ≤ e.wall - oe →
      ((e.wall - oe) - (s.wall - os)).tdiv 60
        = ((e.wall - oe) - (s.wall - os)).fdiv 60) ∧
    ((e.wall - oe) - (s.wall - os) ≤ -60 →
      ((e.wall - oe) - (s.wall - os)).tdiv 60 < 0) := by
  refine ⟨calculate_duration_aware s e os oe hs he, fun h => ?_,
    fun h => tdiv_sixty_neg _ h⟩
  exact tdiv_eq_fdiv_of_nonneg _ (by omega)

theorem C2_duration_truncates_witness :
    calculate_duration ⟨0, some 0⟩ (some ⟨150, some 0⟩)
      = .ok ((((150 : Int) - 0) - ((0 : Int) - 0)).tdiv 60) :=
  (C2_duration_truncates ⟨0, some 0⟩ ⟨150, some 0⟩ 0 0 rfl rfl).1

/-- C3 (code bug): `calculate_duration` normalizes only a naive start paired
with an aware end.  An aware start with a naive end is NOT normalized: the
subtraction raises `TypeError`, so the function is not total on mixed
naive/aware pairs as the spec claims (the dead original at lines 83-94
handled both directions). -/
theorem C3_mixed_pair :
    calculate_duration ⟨0, none⟩ (some ⟨60, some 0⟩) = .ok 1 ∧
    calculate_duration ⟨0, none⟩ (some ⟨60, none⟩) = .ok 1 ∧
    calculate_duration ⟨0, some 0⟩ (some ⟨60, some 0⟩) = .ok 1 ∧
    calculate_duration ⟨0, some 0⟩ (some ⟨60, none⟩) = .error "TypeError" :=
  ⟨rfl, rfl, rfl, rfl⟩

/-- C5: when some entry of the owner is already running, `POST
/start/{activity_id}` (with a valid activity of that owner) fails with HTTP
400 and returns the store unchanged: no entry is inserted and the running
entry keeps its state. -/
theorem C5_start_conflict (st : Store) (uid aid nid : String) (now : Int)
    (act : ActivityRec) (hact : getActivity st aid = some act)
    (hown : act.user_id = uid) (e : TimeEntryRec) (he : e ∈ st.time_entries)
    (hu : e.user_id = uid) (hr : e.is_running = true) :
    start_time_entry st uid aid nid now =
      (.error (.http 400 "Another time entry is already running. Please stop it first."),
        st) := by
  have hany : st.time_entries.any (fun x => x.user_id == uid && x.is_running) = true :=
    List.any_eq_true.2 ⟨e, he, by simp [hu, hr]⟩
  simp [start_time_entry, hact, hown, hany]

theorem C5_start_conflict_witness :
    start_time_entry ⟨[actA], [runningT1]⟩ "u1" "a1" "t9" 100 =
      (.error (.http 400 "Another time entry is already running. Please stop it first."),
        ⟨[actA], [runningT1]⟩) :=
  C5_start_conflict _ _ _ _ _ actA rfl rfl runningT1 (by simp) rfl rfl

/-- Successful-path shape of `stop_time_entry`: on an existing, owned,
running entry the duration computation succeeds and the three-field merge is
returned and written back. -/
theorem stop_time_entry_shape (st : Store) (uid eid : String) (now : Int)
    (e : TimeEntryRec) (hf : getEntry st eid = some e) (hu : e.user_id = uid)
    (hr : e.is_running = true) :
    ∃ d, calculate_duration (normIfNaive e.start_datetime)
        (some ⟨now, some 0⟩) = .ok d ∧
      stop_time_entry st uid eid now =
        (.ok (stopMerge now d e),
          { st with time_entries :=
              st.time_entries.map (fun x => if x.id == eid then stopMerge now d x else x) }) := by
  obtain ⟨o, ho⟩ := normIfNaive_aware e.start_datetime
  have hd := calculate_duration_aware (normIfNaive e.start_datetime)
    ⟨now, some 0⟩ o 0 ho rfl
  refine ⟨_, hd, ?_⟩
  simp only [stop_time_entry, hf, hu, hr, hd, ne_eq, not_true_eq_false,
    ite_false, Bool.not_true, ite_true]

/-- C6: `PATCH /{entry_id}/stop` checks in order: a missing entry fails with
404; an existing entry of another owner fails with 403 and performs no store
write; an owned but not-running entry fails with 400 and performs no store
write; only an owned running entry is updated — end set to now, duration
recomputed, `is_running` set to false (the `stopMerge` three-field merge) —
in the returned record and in the store. -/
theorem C6_stop_checks (st : Store) (uid eid : String) (now : Int) :
    (getEntry st eid = none →
      stop_time_entry st uid eid now
        = (.error (.http 404 "Time entry not found"), st)) ∧
    (∀ e, getEntry st eid = some e → e.user_id ≠ uid →
      stop_time_entry st uid eid now
        = (.error (.http 403 "Access denied"), st)) ∧
    (∀ e, getEntry st eid = some e → e.user_id = uid → e.is_running = false →
      stop_time_entry st uid eid now
        = (.error (.http 400 "Time entry is not running"), st)) ∧
    (∀ e, getEntry st eid = some e → e.user_id = uid → e.is_running = true →
      ∃ d, calculate_duration (normIfNaive e.start_datetime)
          (some ⟨now, some 0⟩) = .ok d ∧
        (stop_time_entry st uid eid now).1 = .ok (stopMerge now d e) ∧
        getEntry (stop_time_entry st uid eid now).2 eid
          = some (stopMerge now d e)) := by
  refine ⟨?_, ?_, ?_, ?_⟩
  · intro h
    simp [stop_time_entry, h]
  · intro e hf hne
    simp [stop_time_entry, hf, hne]
  · intro e hf hu hr
    simp [stop_time_entry, hf, hu, hr]
  · intro e hf hu hr
    obtain ⟨d, hd, hshape⟩ := stop_time_entry_shape st uid eid now e hf hu hr
    refine ⟨d, hd, by rw [hshape], ?_⟩
    rw [hshape]
    exact find?_map_merge st.time_entries eid (stopMerge now d) (fun x => rfl) e hf

theorem C6_stop_checks_witness :
    stop_time_entry ⟨[actA], [runningT1]⟩ "u1" "zzz" 300 =
      (.error (.http 404 "Time entry not found"), ⟨[actA], [runningT1]⟩) ∧
    stop_time_entry ⟨[actA], [runningT1]⟩ "u2" "t1" 300 =
      (.error (.http 403 "Access denied"), ⟨[actA], [runningT1]⟩) ∧
    stop_time_entry ⟨[actA], [closedT2]⟩ "u1" "t2" 300 =
      (.error (.http 400 "Time entry is not running"), ⟨[actA], [closedT2]⟩) ∧
    (∃ d, calculate_duration (normIfNaive runningT1.start_datetime)
        (some ⟨300, some 0⟩) = .ok d ∧
      (stop_time_entry ⟨[actA], [runningT1]⟩ "u1" "t1" 300).1
        = .ok (stopMerge 300 d runningT1) ∧
      getEntry (stop_time_entry ⟨[actA], [runningT1]⟩ "u1" "t1" 300).2 "t1"
        = some (stopMerge 300 d runningT1)) :=
  ⟨(C6_stop_checks ⟨[actA], [runningT1]⟩ "u1" "zzz" 300).1 rfl,
   (C6_stop_checks ⟨[actA], [runningT1]⟩ "u2" "t1" 300).2.1 runningT1 rfl (by decide),
   (C6_stop_checks ⟨[actA], [closedT2]⟩ "u1" "t2" 300).2.2.1 closedT2 rfl rfl rfl,
   (C6_stop_checks ⟨[actA], [runningT1]⟩ "u1" "t1" 300).2.2.2 runningT1 rfl rfl rfl⟩

/-- C10: a successful stop changes only `end_datetime`, `duration_minutes`
and `is_running` on the stored entry; `id`, `activity_id`, `start_datetime`,
`created_at`, `notes`, `tags` and the owner are unchanged. -/
theorem C10_stop_frame (st : Store) (uid eid : String) (now : Int)
    (e : TimeEntryRec) (hf : getEntry st eid = some e) (hu : e.user_id = uid)
    (hr : e.is_running = true) :
    ∃ e2, getEntry (stop_time_entry st uid eid now).2 eid = some e2 ∧
      e2.end_datetime = some ⟨now, some 0⟩ ∧ e2.is_running = false ∧
      (∃ d, e2.duration_minutes = some d) ∧
      e2.id = e.id ∧ e2.activity_id = e.activity_id ∧
      e2.start_datetime = e.start_datetime ∧ e2.created_at = e.created_at ∧
      e2.notes = e.notes ∧ e2.tags = e.tags ∧ e2.user_id = e.user_id := by
  obtain ⟨d, hd, hshape⟩ := stop_time_entry_shape st uid eid now e hf hu hr
  refine ⟨stopMerge now d e, ?_, rfl, rfl, ⟨d, rfl⟩, rfl, rfl, rfl, rfl, rfl, rfl, rfl⟩
  rw [hshape]
  exact find?_map_merge st.time_entries eid (stopMerge now d) (fun x => rfl) e hf

theorem C10_stop_frame_witness :
    ∃ e2, getEntry (stop_time_entry ⟨[actA], [runningT1]⟩ "u1" "t1" 300).2 "t1"
        = some e2 ∧
      e2.end_datetime = some ⟨300, some 0⟩ ∧ e2.is_running = false ∧
      (∃ d, e2.duration_minutes = some d) ∧
      e2.id = runningT1.id ∧ e2.activity_id = runningT1.activity_id ∧
      e2.start_datetime = runningT1.start_datetime ∧
      e2.created_at = runningT1.created_at ∧
      e2.notes = runningT1.notes ∧ e2.tags = runningT1.tags ∧
      e2.user_id = runningT1.user_id :=
  C10_stop_frame ⟨[actA], [runningT1]⟩ "u1" "t1" 300 runningT1 rfl rfl rfl

/-- C4: the tag-merge asymmetry of `PATCH /{entry_id}` on an existing, owned
entry: a patch with tags but no notes replaces the stored tag list verbatim
(no union, no re-extraction), both in the returned record and in the store;
a patch with notes yields the tag set that is exactly the union of the
previously stored tags, the supplied tags (empty if absent) and the tags
freshly extracted from the new notes. -/
theorem C4_update_merge_policy (st : Store) (uid eid : String)
    (patch : TimeEntryUpdate) (e : TimeEntryRec)
    (hf : getEntry st eid = some e) (hown : e.user_id = uid) :
    (∀ ts, patch.notes = none → patch.tags = some ts →
      ∃ r, (update_time_entry st uid eid patch).1 = .ok r ∧
        getEntry (update_time_entry st uid eid patch).2 eid = some r ∧
        r.tags = ts) ∧
    (∀ n, patch.notes = some n →
      ∃ r, (update_time_entry st uid eid patch).1 = .ok r ∧
        getEntry (update_time_entry st uid eid patch).2 eid = some r ∧
        ∀ tg, (tg ∈ r.tags ↔ tg ∈ e.tags ∨ tg ∈ patch.tags.getD [] ∨
          tg ∈ (extract_tags_from_text n).2)) := by
  obtain ⟨durOpt, _, hshape⟩ := update_time_entry_shape st uid eid patch e hf hown
  constructor
  · intro ts hn ht
    have hcond : (patch.notes.isSome || patch.tags.isSome
        || patch.end_datetime.isSome) = true := by
      simp [ht]
    refine ⟨applyUpd patch e durOpt e, by rw [hshape], ?_,
      applyUpd_tags_replace patch e durOpt e ts hn ht⟩
    rw [hshape]
    show getEntry (if _ then _ else _) eid = _
    rw [if_pos hcond]
    exact find?_map_merge st.time_entries eid (applyUpd patch e durOpt)
      (applyUpd_id patch e durOpt) e hf
  · intro n hn
    have hcond : (patch.notes.isSome || patch.tags.isSome
        || patch.end_datetime.isSome) = true := by
      simp [hn]
    refine ⟨applyUpd patch e durOpt e, by rw [hshape], ?_, ?_⟩
    · rw [hshape]
      show getEntry (if _ then _ else _) eid = _
      rw [if_pos hcond]
      exact find?_map_merge st.time_entries eid (applyUpd patch e durOpt)
        (applyUpd_id patch e durOpt) e hf
    · intro tg
      rw [applyUpd_tags_notes patch e durOpt e n hn]
      simp [List.mem_dedup, List.mem_append, or_assoc]

theorem C4_update_merge_policy_witness :
    (∃ r, (update_time_entry ⟨[actA], [closedT2]⟩ "u1" "t2"
        ⟨none, none, some [['x']]⟩).1 = .ok r ∧
      getEntry (update_time_entry ⟨[actA], [closedT2]⟩ "u1" "t2"
        ⟨none, none, some [['x']]⟩).2 "t2" = some r ∧
      r.tags = [['x']]) ∧
    (∃ r, (update_time_entry ⟨[actA], [closedT2]⟩ "u1" "t2"
        ⟨none, some ['d', 'o', 'n', 'e', ' ', '#', 'x'], none⟩).1 = .ok r ∧
      getEntry (update_time_entry ⟨[actA], [closedT2]⟩ "u1" "t2"
        ⟨none, some ['d', 'o', 'n', 'e', ' ', '#', 'x'], none⟩).2 "t2" = some r ∧
      ∀ tg, (tg ∈ r.tags ↔ tg ∈ closedT2.tags ∨
        tg ∈ (⟨none, some ['d', 'o', 'n', 'e', ' ', '#', 'x'], none⟩ :
          TimeEntryUpdate).tags.getD [] ∨
        tg ∈ (extract_tags_from_text ['d', 'o', 'n', 'e', ' ', '#', 'x']).2)) :=
  ⟨(C4_update_merge_policy ⟨[actA], [closedT2]⟩ "u1" "t2"
      ⟨none, none, some [['x']]⟩ closedT2 rfl rfl).1 [['x']] rfl rfl,
   (C4_update_merge_policy ⟨[actA], [closedT2]⟩ "u1" "t2"
      ⟨none, some ['d', 'o', 'n', 'e', ' ', '#', 'x'], none⟩ closedT2 rfl rfl).2
      ['d', 'o', 'n', 'e', ' ', '#', 'x'] rfl⟩

/-- C7 counterexample: an Update whose patch supplies only tags (no notes)
stores the supplied list verbatim, so a duplicated element survives in the
store: the stored tags collection is NOT always deduplicated. -/
theorem C7_cex :
    ∃ r, (update_time_entry ⟨[actA], [closedT2]⟩ "u1" "t2"
        ⟨none, none, some [['a'], ['a']]⟩).1 = .ok r ∧
      getEntry (update_time_entry ⟨[actA], [closedT2]⟩ "u1" "t2"
        ⟨none, none, some [['a'], ['a']]⟩).2 "t2" = some r ∧
      r.tags = [['a'], ['a']] ∧ ¬r.tags.Nodup := by
  refine ⟨{ closedT2 with tags := [['a'], ['a']] }, rfl, rfl, rfl, by decide⟩

/-- C7 (amended): the stored tags are duplicate-free after CreateWithRange
(which deduplicates through `list(set(...))`), after Start (empty tags), and
after an Update whose patch carries notes (deduplicated union); Stop leaves
the tags unchanged.  The exception is the tags-only Update path, which stores
`patch.tags` verbatim — duplicates supplied there persist (see the
counterexample). -/
theorem C7_dedup_on_writes :
    (∀ st uid entry nid cw r st2,
      add_time_entry st uid entry nid cw = (.ok r, st2) → r.tags.Nodup) ∧
    (∀ st uid aid nid cw r st2,
      start_time_entry st uid aid nid cw = (.ok r, st2) → r.tags = []) ∧
    (∀ st uid eid patch e n, getEntry st eid = some e → e.user_id = uid →
      patch.notes = some n →
      ∃ r, (update_time_entry st uid eid patch).1 = .ok r ∧ r.tags.Nodup) ∧
    (∀ st uid eid now e, getEntry st eid = some e → e.user_id = uid →
      e.is_running = true →
      ∃ r, (stop_time_entry st uid eid now).1 = .ok r ∧ r.tags = e.tags) := by
  refine ⟨?_, ?_, ?_, ?_⟩
  · intro st uid entry nid cw r st2 h
    rw [add_time_entry] at h
    split at h
    · simp at h
    · split at h
      · simp at h
      · dsimp only at h
        split at h
        · simp at h
        · rw [Prod.mk.injEq] at h
          obtain ⟨h1, _⟩ := h
          rw [Except.ok.injEq] at h1
          rw [← h1]
          exact List.nodup_dedup _
  · intro st uid aid nid cw r st2 h
    rw [start_time_entry] at h
    split at h
    · simp at h
    · split at h
      · simp at h
      · split at h
        · simp at h
        · rw [Prod.mk.injEq] at h
          obtain ⟨h1, _⟩ := h
          rw [Except.ok.injEq] at h1
          rw [← h1]
  · intro st uid eid patch e n hf hown hn
    obtain ⟨durOpt, _, hshape⟩ := update_time_entry_shape st uid eid patch e hf hown
    refine ⟨applyUpd patch e durOpt e, by rw [hshape], ?_⟩
    rw [applyUpd_tags_notes patch e durOpt e n hn]
    exact List.nodup_dedup _
  · intro st uid eid now e hf hown hr
    obtain ⟨d, _, hshape⟩ := stop_time_entry_shape st uid eid now e hf hown hr
    exact ⟨stopMerge now d e, by rw [hshape], rfl⟩

theorem C7_dedup_on_writes_witness :
    (∃ r st2, add_time_entry ⟨[actA], []⟩ "u1"
        ⟨"a1", ⟨0, none⟩, some ⟨120, none⟩, none, some [['a'], ['a']]⟩ "t9" 0
        = (.ok r, st2) ∧ r.tags.Nodup) ∧
    (∃ r st2, start_time_entry ⟨[actA], []⟩ "u1" "a1" "t9" 0 = (.ok r, st2) ∧
      r.tags = []) ∧
    (∃ r, (update_time_entry ⟨[actA], [closedT2]⟩ "u1" "t2"
        ⟨none, some ['#', 'x'], some [['b'], ['b']]⟩).1 = .ok r ∧ r.tags.Nodup) ∧
    (∃ r, (stop_time_entry ⟨[actA], [runningT1]⟩ "u1" "t1" 300).1 = .ok r ∧
      r.tags = runningT1.tags) :=
  ⟨⟨{ createdT9 with tags := [['a']] }, ⟨[actA], [{ createdT9 with tags := [['a']] }]⟩,
      rfl, C7_dedup_on_writes.1 ⟨[actA], []⟩ "u1"
        ⟨"a1", ⟨0, none⟩, some ⟨120, none⟩, none, some [['a'], ['a']]⟩ "t9" 0
        { createdT9 with tags := [['a']] }
        ⟨[actA], [{ createdT9 with tags := [['a']] }]⟩ rfl⟩,
   ⟨startedT9, ⟨[actA], [startedT9]⟩, rfl,
      C7_dedup_on_writes.2.1 ⟨[actA], []⟩ "u1" "a1" "t9" 0 startedT9
        ⟨[actA], [startedT9]⟩ rfl⟩,
   C7_dedup_on_writes.2.2.1 ⟨[actA], [closedT2]⟩ "u1" "t2"
      ⟨none, some ['#', 'x'], some [['b'], ['b']]⟩ closedT2 ['#', 'x'] rfl rfl rfl,
   C7_dedup_on_writes.2.2.2 ⟨[actA], [runningT1]⟩ "u1" "t1" 300 runningT1
      rfl rfl rfl⟩

/-- The accumulator form of the totaling loop. -/
theorem sum_duration_minutes_spec (docs : List TimeEntryRec) :
    sum_duration_minutes docs
      = (docs.map (fun e => e.duration_minutes.getD 0)).sum := by
  rw [sum_duration_minutes]
  have key : ∀ (l : List TimeEntryRec) (t : Int),
      l.foldl
        (fun total e =>
          match e.duration_minutes with
          | some d => if d == 0 then total else total + d
          | none => total) t
        = t + (l.map (fun e => e.duration_minutes.getD 0)).sum := by
    intro l
    induction l with
    | nil => intro t; simp
    | cons a l ih =>
      intro t
      rw [List.foldl_cons, ih, List.map_cons, List.sum_cons]
      cases ha : a.duration_minutes with
      | none => simp [ha]
      | some d =>
        by_cases hd : d = 0
        · simp [ha, hd]
        · simp only [ha, Option.getD_some, beq_iff_eq, if_neg hd]
          ring
  rw [key]
  ring

/-- C9: for every query result set, `total_minutes` equals the sum of
`duration_minutes` over the returned entries with null durations counting as
zero — i.e. the sum over exactly the non-null ones. -/
theorem C9_total_is_sum (st : Store) (uid : String) (aopt : Option String) :
    (list_time_entries st uid aopt).total_minutes =
      ((list_time_entries st uid aopt).entries.map
        (fun e => e.duration_minutes.getD 0)).sum := by
  rw [list_time_entries]
  exact sum_duration_minutes_spec _

end Raven

example : Raven.calculate_duration ⟨0, some 0⟩ (some ⟨90, some 0⟩) = .ok 1 := rfl

example : Raven.calculate_duration ⟨90, some 0⟩ (some ⟨0, some 0⟩) = .ok (-1) := rfl

example : Raven.calculate_duration ⟨0, some 0⟩ (some ⟨60, none⟩) = .error "TypeError" := rfl

example : Raven.calculate_duration ⟨0, none⟩ (some ⟨60, some 0⟩) = .ok 1 := rfl

-- spec §8.2: extract("Lunch with #client #urgent") = ("Lunch with", {client, urgent})
example :
    Raven.extract_tags_from_text "Lunch with #client #urgent".data =
      ("Lunch with".data, ["client".data, "urgent".data]) := by
  simp [Raven.extract_tags_from_text, Raven.scanTags, Raven.pySplit, Raven.pyStrip,
    Raven.joinWords, Raven.isSpaceChar, Raven.isWordChar, String.data]

-- spec §8.8: a result set with durations {30, null, 45} totals 75 minutes
example :
    Raven.sum_duration_minutes
      [{ Raven.closedT2 with duration_minutes := some 30 },
       { Raven.runningT1 with duration_minutes := none },
       { Raven.closedT2 with duration_minutes := some 45 }] = 75 := rfl
